import Mathlib

set_option maxRecDepth 16384

/-!
Verification of the `US_Code_Citations_from_URLs` repository (two Python
variants, dated 2024-11-27 and 2024-11-28).

The development shallowly embeds the citation-matching pipeline:

* a small backtracking regular-expression engine faithful to Python `re`
  semantics for the two concrete patterns used by the sources (leftmost
  scanning, first-alternative priority, greedy quantifiers with
  backtracking, `\b` word boundaries, `re.findall` non-overlapping
  iteration);
* the two concrete patterns of `find_us_code_citations` (one per variant);
* `normalize_text`, `get_context`, the literal `re.search` used for
  context lookup, `extract_text_from_pdf` (both variants), the per-URL
  processing loops, the retrying `download_pdf`, and the CSV writers.

Strings are modelled as `List Char`; Python's `\d`/`\s`/`\w` classes are
modelled on their ASCII parts, which the source texts use.
-/

namespace USCode

/-- Python `\s` (ASCII part): space, tab, newline, carriage return,
vertical tab, form feed. -/
def isPySpace (c : Char) : Bool :=
  c = ' ' || c = '\t' || c = '\n' || c = '\r' || c = '\x0b' || c = '\x0c'

/-- Python `\d` (ASCII part): decimal digits. -/
def isPyDigit (c : Char) : Bool := c.isDigit

/-- Python `\w` (ASCII part): letters, digits and underscore. -/
def isPyWord (c : Char) : Bool := c.isAlphanum || c = '_'

/-- Regular expressions as used by the two source patterns.  Every
quantifier in those patterns ranges over a single character class, so
quantification is restricted to classes (`quant p lo hi`, `hi = none`
meaning unbounded), which makes the greedy backtracking semantics exact
and simple. -/
inductive RE where
  /-- empty pattern -/
  | eps : RE
  /-- a literal string, e.g. `U\.S\.C\.` -/
  | lit (s : List Char) : RE
  /-- a single character from a class, e.g. `\s` -/
  | cls (p : Char → Bool) : RE
  /-- a greedy class quantifier: `{lo,hi}`, `*` is `0, none`,
  `+` is `1, none`, `?` is `0, some 1` -/
  | quant (p : Char → Bool) (lo : Nat) (hi : Option Nat) : RE
  /-- concatenation -/
  | cat (a b : RE) : RE
  /-- alternation, left branch preferred (Python priority) -/
  | alt (a b : RE) : RE
  /-- the `\b` word-boundary assertion -/
  | wb : RE

/-- Number of consecutive characters of `text` from position `pos`
satisfying `p`, capped at `hi` when bounded. -/
def runLen (p : Char → Bool) (text : List Char) (pos : Nat) (hi : Option Nat) : Nat :=
  let n := ((text.drop pos).takeWhile p).length
  match hi with
  | none => n
  | some h => min n h

/-- Greedy backtracking for a class quantifier: try the continuation `k`
after consuming `i, i-1, ..., lo` characters, in that order. -/
def tryFrom (k : Nat → Option Nat) (pos lo : Nat) : Nat → Option Nat
  | 0 => if lo = 0 then k pos else none
  | i + 1 =>
    if i + 1 < lo then none
    else
      match k (pos + (i + 1)) with
      | some r => some r
      | none => tryFrom k pos lo i

/-- Does the literal `s` occur in `text` starting at `pos`? -/
def litAt (text s : List Char) (pos : Nat) : Bool :=
  s.isPrefixOf (text.drop pos)

/-- Is the character at position `i` of `text` a word character
(out of range counts as no)? -/
def wordAt (text : List Char) (i : Nat) : Bool :=
  match text[i]? with
  | some c => isPyWord c
  | none => false

/-- Python `\b`: holds at `pos` iff exactly one of the neighbouring
positions holds a word character (string ends count as non-word). -/
def boundaryAt (text : List Char) (pos : Nat) : Bool :=
  (if pos = 0 then false else wordAt text (pos - 1)) != wordAt text pos

/-- Backtracking matcher in continuation style: `matchRE text re pos k`
attempts to match `re` at position `pos` of `text` and passes the
position after the match to `k`, exploring alternatives in Python `re`
priority order (left alternative first, greedy quantifiers longest
first). -/
def matchRE (text : List Char) : RE → Nat → (Nat → Option Nat) → Option Nat
  | .eps, pos, k => k pos
  | .lit s, pos, k => if litAt text s pos then k (pos + s.length) else none
  | .cls p, pos, k =>
    match text[pos]? with
    | some c => if p c then k (pos + 1) else none
    | none => none
  | .quant p lo hi, pos, k => tryFrom k pos lo (runLen p text pos hi)
  | .cat a b, pos, k => matchRE text a pos (fun p2 => matchRE text b p2 k)
  | .alt a b, pos, k =>
    match matchRE text a pos k with
    | some r => some r
    | none => matchRE text b pos k
  | .wb, pos, k => if boundaryAt text pos then k pos else none

/-- `re.findall` scanning loop: starting at `pos`, report the span of the
leftmost match and continue after it (advancing by one on an empty
match), trying each start position in turn.  `fuel` bounds the recursion;
`text.length + 1` is always enough since the position strictly
increases. -/
def scanGo (re : RE) (text : List Char) : Nat → Nat → List (Nat × Nat)
  | 0, _ => []
  | fuel + 1, pos =>
    if pos > text.length then []
    else
      match matchRE text re pos some with
      | some e => (pos, e) :: scanGo re text fuel (max e (pos + 1))
      | none => scanGo re text fuel (pos + 1)

/-- Spans `(start, end)` of the non-overlapping matches of `re` in
`text`, in order of discovery, as produced by `re.findall`. -/
def findallSpans (re : RE) (text : List Char) : List (Nat × Nat) :=
  scanGo re text (text.length + 1) 0

/-- The substring of `text` from position `s` (inclusive) to `e`
(exclusive), Python's `text[s:e]` for `0 ≤ s ≤ e`. -/
def sliceStr (text : List Char) (s e : Nat) : List Char :=
  (text.drop s).take (e - s)

/-- `re.findall pattern text` for a pattern without capturing groups:
the list of matched substrings. -/
def findall (re : RE) (text : List Char) : List (List Char) :=
  (findallSpans re text).map (fun se => sliceStr text se.1 se.2)

/-- Convert a string literal to the `List Char` representation used
throughout. -/
def strL (s : String) : List Char := s.data

/-- `\d{1,2}` -/
def d12 : RE := .quant isPyDigit 1 (some 2)

/-- `\d+` -/
def dPlus : RE := .quant isPyDigit 1 none

/-- `\w+` -/
def wPlus : RE := .quant isPyWord 1 none

/-- `\s` -/
def sp : RE := .cls isPySpace

/-- `\s?` -/
def spOpt : RE := .quant isPySpace 0 (some 1)

/-- `\s*` -/
def spStar : RE := .quant isPySpace 0 none

/-- Right-nested concatenation of a list of regexes. -/
def cats (l : List RE) : RE := l.foldr .cat .eps

/-- The character class `[\d\w\-\–]` of the 2024-11-27 pattern
(digits, word characters, hyphen, en-dash). -/
def cls27 (c : Char) : Bool := isPyDigit c || isPyWord c || c = '-' || c = '–'

/-- Alternative `\d{1,2}\sU\.S\.C\.` -/
def alt27a : RE := cats [d12, sp, .lit (strL "U.S.C.")]

/-- Alternative `\d{1,2}\sUSC` -/
def alt27b : RE := cats [d12, sp, .lit (strL "USC")]

/-- Alternative `\d{1,2}\sU\.S\.\sCode` -/
def alt27c : RE := cats [d12, sp, .lit (strL "U.S."), sp, .lit (strL "Code")]

/-- Alternative `\d{1,2}\sU\.S\.\sC\.` -/
def alt27d : RE := cats [d12, sp, .lit (strL "U.S."), sp, .lit (strL "C.")]

/-- Alternative `\d{1,2}\sUS\sCode` -/
def alt27e : RE := cats [d12, sp, .lit (strL "US"), sp, .lit (strL "Code")]

/-- The common tail `of\stitle\s\d+,\sUnited\sStates\sCode` of the last
two alternatives. -/
def tail27 : RE :=
  cats [.lit (strL "of"), sp, .lit (strL "title"), sp, dPlus, .lit (strL ","),
    sp, .lit (strL "United"), sp, .lit (strL "States"), sp, .lit (strL "Code")]

/-- Alternative `chapter\s\d+\sof\stitle\s\d+,\sUnited\sStates\sCode` -/
def alt27f : RE := cats [.lit (strL "chapter"), sp, dPlus, sp, tail27]

/-- Alternative `\d+\w+\sof\stitle\s\d+,\sUnited\sStates\sCode` -/
def alt27g : RE := cats [dPlus, wPlus, sp, tail27]

/-- The 2024-11-27 pattern
`\b(?:\d{1,2}\sU\.S\.C\.|\d{1,2}\sUSC|\d{1,2}\sU\.S\.\sCode|\d{1,2}\sU\.S\.\sC\.|\d{1,2}\sUS\sCode|chapter\s\d+\sof\stitle\s\d+,\sUnited\sStates\sCode|\d+\w+\sof\stitle\s\d+,\sUnited\sStates\sCode)\s?[\d\w\-\–]*\b`,
with the alternatives in source order (Python prefers the leftmost
alternative). -/
def pattern27 : RE :=
  cats [.wb,
    .alt alt27a (.alt alt27b (.alt alt27c (.alt alt27d (.alt alt27e (.alt alt27f alt27g))))),
    spOpt, .quant cls27 0 none, .wb]

/-- `find_us_code_citations` of the 2024-11-27 variant:
`re.findall(pattern, text)`. -/
def find_us_code_citations_27 (text : List Char) : List (List Char) :=
  findall pattern27 text

/-- The character class `[-,0-9a-zA-Z]` of the 2024-11-28 pattern. -/
def cls28 (c : Char) : Bool := c = '-' || c = ',' || isPyDigit c || c.isAlpha

/-- The 2024-11-28 pattern
`(?:\d+)\s*U\.S\.C\.\s*(?:\d+[-,0-9a-zA-Z]*)`. -/
def pattern28 : RE :=
  cats [dPlus, spStar, .lit (strL "U.S.C."), spStar, dPlus, .quant cls28 0 none]

/-- Python `str.strip()`: remove leading and trailing whitespace. -/
def pyStrip (l : List Char) : List Char :=
  ((l.dropWhile isPySpace).reverse.dropWhile isPySpace).reverse

/-- `find_us_code_citations` of the 2024-11-28 variant:
`[citation.strip() for citation in re.findall(pattern, text)]`. -/
def find_us_code_citations_28 (text : List Char) : List (List Char) :=
  (findall pattern28 text).map pyStrip

/-- Character-by-character replacement of whitespace runs: `inRun` says
whether the previous character belonged to a whitespace run (whose single
replacement space has already been emitted). -/
def collapseRun (inRun : Bool) : List Char → List Char
  | [] => []
  | c :: cs =>
    if isPySpace c then
      if inRun then collapseRun true cs
      else ' ' :: collapseRun true cs
    else c :: collapseRun false cs

/-- `re.sub(r"\s+", " ", text)`: replace every maximal run of whitespace
characters by a single space (the first character of a run emits the
space, the rest of the run is dropped). -/
def collapseWS (l : List Char) : List Char := collapseRun false l

/-- `text.replace("—", "-")` character by character (the em-dash is a
single character). -/
def replDash (c : Char) : Char := if c = '—' then '-' else c

/-- `normalize_text` of the 2024-11-28 variant: collapse whitespace runs
to a single space, then replace em-dashes by hyphens. -/
def normalize_text (text : List Char) : List Char :=
  (collapseWS text).map replDash

/-- `get_context(text, match, context_length=40)` of the 2024-11-28
variant given the match span `[s, e)`:
`text[max(s - 40, 0) : min(e + 40, len(text))].strip()`
(natural-number subtraction is exactly Python's `max(s - 40, 0)`). -/
def get_context (text : List Char) (s e : Nat) : List Char :=
  pyStrip (sliceStr text (s - 40) (min (e + 40) text.length))

/-- The text immediately preceding a match starting at `s`, clipped at
the left boundary and at 40 characters: `text[max(s - 40, 0) : s]`. -/
def ctxBefore (text : List Char) (s : Nat) : List Char :=
  sliceStr text (s - 40) s

/-- The text immediately following a match ending at `e`, clipped at the
right boundary and at 40 characters: `text[e : min(e + 40, len(text))]`. -/
def ctxAfter (text : List Char) (e : Nat) : List Char :=
  sliceStr text e (min (e + 40) text.length)

/-- One step of `re.search(re.escape(pat), text)`: scan positions from
`pos` upward and return the span of the first occurrence of the literal
`pat`. -/
def searchLit (text pat : List Char) : Nat → Nat → Option (Nat × Nat)
  | 0, _ => none
  | fuel + 1, pos =>
    if pos > text.length then none
    else if pat.isPrefixOf (text.drop pos) then some (pos, pos + pat.length)
    else searchLit text pat fuel (pos + 1)

/-- `re.search(re.escape(pat), text)`: the span of the first (leftmost)
occurrence of the literal string `pat` in `text`, if any. -/
def searchLiteral (text pat : List Char) : Option (Nat × Nat) :=
  searchLit text pat (text.length + 1) 0

/-- An output record of the 2024-11-28 variant:
`{"url": ..., "citation": ..., "context": ...}`. -/
structure Row where
  url : List Char
  citation : List Char
  context : List Char
deriving DecidableEq, Repr

/-- The per-document part of `process_urls` (2024-11-28) applied to the
text extracted for `url`: `if text:` normalize, find the citations and,
for each citation, look up the first occurrence of its literal string and
record its context. -/
def processText (url rawText : List Char) : List Row :=
  if rawText.isEmpty then []
  else
    let text := normalize_text rawText
    (find_us_code_citations_28 text).filterMap (fun c =>
      (searchLiteral text c).map (fun se => ⟨url, c, get_context text se.1 se.2⟩))

/-- The outcome of opening a downloaded document and extracting each
page: either an exception at open/parse time, or the per-page results of
`page.extract_text()` (`none` models a page yielding `None`). -/
def PdfOutcome := Except (List Char) (List (Option (List Char)))

/-- `extract_text_from_pdf` of the 2024-11-28 variant:
`" ".join([page.extract_text() for page in pdf.pages if page.extract_text()])`,
keeping only pages with truthy (non-`None`, non-empty) text; any
exception is caught and the function returns `""`. -/
def extract_text_from_pdf_28 (pdf : PdfOutcome) : List Char :=
  match pdf with
  | .ok pages => List.intercalate [' ']
      ((pages.filterMap id).filter (fun t => !t.isEmpty))
  | .error _ => []

/-- The page-accumulation loop of the 2024-11-27 `extract_text_from_pdf`:
`text += page.extract_text()` page by page; a `None` page raises inside
the `try` block, so the text accumulated so far is returned. -/
def accumPages (acc : List Char) : List (Option (List Char)) → List Char
  | [] => acc
  | some t :: rest => accumPages (acc ++ t) rest
  | none :: _ => acc

/-- `extract_text_from_pdf` of the 2024-11-27 variant: concatenate the
page texts (no separator); any exception is caught and the text
accumulated so far (initially `""`) is returned. -/
def extract_text_from_pdf_27 (pdf : PdfOutcome) : List Char :=
  match pdf with
  | .ok pages => accumPages [] pages
  | .error _ => []

/-- One input document of a run: its URL, whether `download_pdf`
succeeded, and the outcome of opening/extracting the downloaded file. -/
structure Doc where
  url : List Char
  dl : Bool
  pdf : PdfOutcome

/-- The accumulation of result rows by `process_urls` (2024-11-28): per
URL, when the download succeeded, the rows produced from the extracted
text; a failed download contributes nothing. -/
def processUrls28 (docs : List Doc) : List Row :=
  (docs.map (fun d =>
    if d.dl then processText d.url (extract_text_from_pdf_28 d.pdf) else [])).flatten

/-- An output record of the 2024-11-27 variant:
`{"filename": ..., "citations": ...}`. -/
structure Row27 where
  filename : List Char
  citations : List (List Char)
deriving DecidableEq, Repr

/-- `url.split("/")[-1]`: the part of the URL after the last slash. -/
def filenameOf (url : List Char) : List Char :=
  (url.reverse.takeWhile (fun c => c ≠ '/')).reverse

/-- The result-accumulation loop of the 2024-11-27 `__main__` block: for
each URL, if the download succeeded, extract the text, find the
citations and append one `{filename, citations}` record; a failed
download appends nothing. -/
def results27 (docs : List Doc) : List Row27 :=
  docs.filterMap (fun d =>
    if d.dl then
      some ⟨filenameOf d.url,
        find_us_code_citations_27 (extract_text_from_pdf_27 d.pdf)⟩
    else none)

/-- The `status_forcelist` of the `Retry` configuration in both
variants. -/
def status_forcelist : List Nat := [429, 500, 502, 503, 504]

/-- `Retry(total=5, ...)`: up to 5 retries after the initial request. -/
def retryTotal : Nat := 5

/-- The urllib3 `Retry` behaviour driving `session.get`, with the
server's answers modelled as a status code per attempt: return the first
response whose status is not in `status_forcelist`; if every attempt
within the budget is forced to retry, the adapter raises (modelled as
`none`). -/
def retriedStatus (statuses : Nat → Nat) : Option Nat :=
  (List.range (retryTotal + 1)).findSome? (fun i =>
    if statuses i ∈ status_forcelist then none else some (statuses i))

/-- `download_pdf` of either variant, over the server's per-attempt
status codes: the retrying `session.get` either raises (retries
exhausted), or yields a response on which `raise_for_status()` raises for
a 4xx/5xx status; every exception is caught and `False` is returned,
otherwise the content is written and `True` is returned. -/
def download_pdf (statuses : Nat → Nat) : Bool :=
  match retriedStatus statuses with
  | none => false
  | some st => if 400 ≤ st then false else true

/-- Join CSV cells with commas (cell-level quoting does not arise in the
fields the claims are about). -/
def joinComma (cells : List (List Char)) : List Char :=
  List.intercalate [','] cells

/-- Python's `repr` of a list of strings, the rendering pandas applies
to the `citations` cell of the 2024-11-27 output. -/
def reprCitations (cs : List (List Char)) : List Char :=
  '[' :: List.intercalate (strL ", ")
    (cs.map (fun c => '\'' :: (c ++ ['\'']))) ++ [']']

/-- `pd.DataFrame(results)` column names: pandas derives them from the
keys of the record dicts, so an empty result list yields no columns. -/
def columns27 (results : List Row27) : List (List Char) :=
  if results.isEmpty then [] else [strL "filename", strL "citations"]

/-- `df.to_csv(..., index=False)` of the 2024-11-27 variant, as the list
of lines of the output file: the header row (the column names joined by
commas) followed by one line per record. -/
def csv27 (results : List Row27) : List (List Char) :=
  joinComma (columns27 results) ::
    results.map (fun r => joinComma [r.filename, reprCitations r.citations])

/-- Whether the 2024-11-28 variant writes an output file:
`if results: df.to_csv(...) else: logging.warning(...)`, so a file is
written exactly when the result list is non-empty (a non-empty list is
truthy). -/
def writes28 (results : List Row) : Bool := !results.isEmpty

/-- A sample URL for concrete runs of the pipeline. -/
def dupUrl : List Char := strL "https://example.org/doc.pdf"

/-- A document text in which the literal citation string
`42 U.S.C. 1983` occurs twice, with different surroundings (the padding
makes the two 40-character context windows differ). -/
def dupText : List Char := strL "aaaaaaaaaaaaaaaaaaaaaaaaaaaaaaaaaaaaaaaaaaaaa 42 U.S.C. 1983 bbbbbbbbbbbbbbbbbbbbbbbbbbbbbbbbbbbbbbbbbbbbb 42 U.S.C. 1983 cc"

/-- A text of length exactly 50 whose single citation match ends at the
last character. -/
def sample50 : List Char := strL "AAAAAAAAAAAAAAAAAAAAAAAAAAAAAAAAAAA12 U.S.C. 99999"

/-- A document whose download failed. -/
def docFail : Doc := ⟨strL "https://example.org/x.pdf", false, .error (strL "unavailable")⟩

/-- A sample result row of the 2024-11-28 variant. -/
def oneRow : Row := ⟨strL "u", strL "5 U.S.C. 552", strL "ctx"⟩

/-- A sample result row of the 2024-11-27 variant. -/
def oneRow27 : Row27 := ⟨strL "a.pdf", []⟩

/-- The literal occurrence of `pat` in `text` at position `i`. -/
def occursAt (text pat : List Char) (i : Nat) : Prop :=
  pat.isPrefixOf (text.drop i) = true

instance (text pat : List Char) (i : Nat) : Decidable (occursAt text pat i) := by
  unfold occursAt
  infer_instance

theorem tryFrom_some (k : Nat → Option Nat) (pos lo : Nat) :
    ∀ i r, tryFrom k pos lo i = some r → ∃ j, k (pos + j) = some r := by
  intro i
  induction i with
  | zero =>
    intro r h
    simp only [tryFrom] at h
    split at h
    · exact ⟨0, h⟩
    · exact absurd h (by simp)
  | succ i ih =>
    intro r h
    simp only [tryFrom] at h
    split at h
    · exact absurd h (by simp)
    · cases hk : k (pos + (i + 1)) with
      | some r' =>
        rw [hk] at h
        exact ⟨i + 1, by rw [hk]; exact h⟩
      | none =>
        rw [hk] at h
        exact ih r h

/-- The matcher only moves forward: a successful match hands the
continuation a position at or after the starting one. -/
theorem matchRE_some (text : List Char) :
    ∀ (re : RE) (pos : Nat) (k : Nat → Option Nat) (r : Nat),
      matchRE text re pos k = some r → ∃ p, pos ≤ p ∧ k p = some r := by
  intro re
  induction re with
  | eps =>
    intro pos k r h
    exact ⟨pos, le_refl _, h⟩
  | lit s =>
    intro pos k r h
    simp only [matchRE] at h
    split at h
    · exact ⟨pos + s.length, Nat.le_add_right .., h⟩
    · exact absurd h (by simp)
  | cls p =>
    intro pos k r h
    simp only [matchRE] at h
    cases hg : text[pos]? with
    | some c =>
      simp only [hg] at h
      split at h
      · exact ⟨pos + 1, Nat.le_add_right .., h⟩
      · exact absurd h (by simp)
    | none =>
      simp only [hg] at h
      exact absurd h (by simp)
  | quant p lo hi =>
    intro pos k r h
    simp only [matchRE] at h
    obtain ⟨j, hj⟩ := tryFrom_some k pos lo _ r h
    exact ⟨pos + j, Nat.le_add_right .., hj⟩
  | cat a b iha ihb =>
    intro pos k r h
    simp only [matchRE] at h
    obtain ⟨p2, hp2, h2⟩ := iha pos _ r h
    obtain ⟨p3, hp3, h3⟩ := ihb p2 k r h2
    exact ⟨p3, le_trans hp2 hp3, h3⟩
  | alt a b iha ihb =>
    intro pos k r h
    simp only [matchRE] at h
    cases ha : matchRE text a pos k with
    | some r' =>
      rw [ha] at h
      obtain ⟨p, hp, hk⟩ := iha pos k r' ha
      exact ⟨p, hp, by rw [hk]; exact h⟩
    | none =>
      rw [ha] at h
      exact ihb pos k r h
  | wb =>
    intro pos k r h
    simp only [matchRE] at h
    split at h
    · exact ⟨pos, le_refl _, h⟩
    · exact absurd h (by simp)

/-- Every span reported by the scanning loop starts at or after the
scanning position. -/
theorem scanGo_start_ge (re : RE) (text : List Char) :
    ∀ fuel pos sp, sp ∈ scanGo re text fuel pos → pos ≤ sp.1 := by
  intro fuel
  induction fuel with
  | zero =>
    intro pos sp h
    simp [scanGo] at h
  | succ fuel ih =>
    intro pos sp h
    simp only [scanGo] at h
    split at h
    · simp at h
    · cases hm : matchRE text re pos some with
      | some e =>
        rw [hm] at h
        rcases List.mem_cons.mp h with rfl | h'
        · exact le_refl _
        · have := ih _ _ h'
          omega
      | none =>
        rw [hm] at h
        have := ih _ _ h
        omega

/-- Every span reported by the scanning loop ends at or after its
start. -/
theorem scanGo_span_le (re : RE) (text : List Char) :
    ∀ fuel pos sp, sp ∈ scanGo re text fuel pos → sp.1 ≤ sp.2 := by
  intro fuel
  induction fuel with
  | zero =>
    intro pos sp h
    simp [scanGo] at h
  | succ fuel ih =>
    intro pos sp h
    simp only [scanGo] at h
    split at h
    · simp at h
    · cases hm : matchRE text re pos some with
      | some e =>
        rw [hm] at h
        rcases List.mem_cons.mp h with rfl | h'
        · obtain ⟨p, hp, hpe⟩ := matchRE_some text re pos some e hm
          cases hpe
          exact hp
        · exact ih _ _ h'
      | none =>
        rw [hm] at h
        exact ih _ _ h

/-- Consecutive spans reported by the scanning loop do not overlap: each
span ends at or before the next one starts. -/
theorem scanGo_chain (re : RE) (text : List Char) :
    ∀ fuel pos, List.Chain' (fun a b => a.2 ≤ b.1) (scanGo re text fuel pos) := by
  intro fuel
  induction fuel with
  | zero =>
    intro pos
    simp [scanGo]
  | succ fuel ih =>
    intro pos
    simp only [scanGo]
    split
    · simp
    · cases hm : matchRE text re pos some with
      | some e =>
        refine List.chain'_cons'.mpr ⟨?_, ih _⟩
        intro b hb
        have hge := scanGo_start_ge re text fuel _ b (List.mem_of_mem_head? hb)
        omega
      | none => exact ih _

/-- Adjacent slices concatenate. -/
theorem sliceStr_append (t : List Char) (a b c : Nat) (hab : a ≤ b) (hbc : b ≤ c) :
    sliceStr t a b ++ sliceStr t b c = sliceStr t a c := by
  unfold sliceStr
  have h1 : c - a = (b - a) + (c - b) := by omega
  have h2 : (t.drop a).drop (b - a) = t.drop b := by
    rw [List.drop_drop]
    congr 1
    omega
  rw [h1, List.take_add, h2]

theorem ctxBefore_length_le (text : List Char) (s : Nat) :
    (ctxBefore text s).length ≤ 40 := by
  unfold ctxBefore sliceStr
  have := List.length_take_le (s - (s - 40)) (text.drop (s - 40))
  omega

theorem ctxAfter_length_le (text : List Char) (e : Nat) :
    (ctxAfter text e).length ≤ 40 := by
  unfold ctxAfter sliceStr
  have := List.length_take_le (min (e + 40) text.length - e) (text.drop e)
  omega

theorem isPySpace_replDash (c : Char) : isPySpace (replDash c) = isPySpace c := by
  unfold replDash
  by_cases h : c = '—' <;> simp [h, isPySpace]

theorem replDash_idem (c : Char) : replDash (replDash c) = replDash c := by
  unfold replDash
  by_cases h : c = '—' <;> simp [h]

theorem replDash_space : replDash ' ' = ' ' := by decide

/-- Whitespace collapsing commutes with the dash substitution (the dash
substitution maps no character into or out of the whitespace class and
fixes the space character). -/
theorem collapseRun_map_replDash (l : List Char) :
    ∀ b, collapseRun b (l.map replDash) = (collapseRun b l).map replDash := by
  induction l with
  | nil => intro b; rfl
  | cons c cs ih =>
    intro b
    simp only [List.map_cons, collapseRun, isPySpace_replDash]
    by_cases h : isPySpace c
    · cases b <;> simp [h, ih, replDash_space]
    · simp [h, ih]

theorem collapseWS_map_replDash (l : List Char) :
    collapseWS (l.map replDash) = (collapseWS l).map replDash :=
  collapseRun_map_replDash l false

/-- Collapsing whitespace runs is idempotent: the output contains no
whitespace other than isolated single spaces. -/
theorem collapseRun_idem (l : List Char) :
    collapseRun false (collapseRun false l) = collapseRun false l ∧
      collapseRun true (collapseRun true l) = collapseRun true l := by
  induction l with
  | nil => exact ⟨rfl, rfl⟩
  | cons c cs ih =>
    by_cases h : isPySpace c
    · constructor
      · simp only [collapseRun, h, if_true, if_false, Bool.false_eq_true]
        simp only [collapseRun, if_pos (by decide : isPySpace ' ' = true), if_false,
          Bool.false_eq_true]
        rw [ih.2]
      · simp only [collapseRun, h, if_true]
        exact ih.2
    · constructor
      · simp only [collapseRun, h, if_false, Bool.false_eq_true]
        rw [ih.1]
      · simp only [collapseRun, h, if_false, Bool.false_eq_true]
        rw [ih.1]

theorem collapseWS_idem (l : List Char) :
    collapseWS (collapseWS l) = collapseWS l :=
  (collapseRun_idem l).1

/-- `re.search` for a literal pattern, scanning from `pos`, reports the
first occurrence at or after `pos` and nothing earlier. -/
theorem searchLit_spec (text pat : List Char) :
    ∀ fuel pos s e, searchLit text pat fuel pos = some (s, e) →
      pos ≤ s ∧ e = s + pat.length ∧ occursAt text pat s ∧
        ∀ j, pos ≤ j → j < s → ¬ occursAt text pat j := by
  intro fuel
  induction fuel with
  | zero =>
    intro pos s e h
    simp [searchLit] at h
  | succ fuel ih =>
    intro pos s e h
    simp only [searchLit] at h
    split at h
    · simp at h
    · split at h
      · rename_i hpre
        cases h
        exact ⟨le_refl _, rfl, hpre, fun j hj1 hj2 => absurd hj1 (by omega)⟩
      · rename_i hpre
        obtain ⟨h1, h2, h3, h4⟩ := ih (pos + 1) s e h
        refine ⟨by omega, h2, h3, fun j hj1 hj2 => ?_⟩
        rcases Nat.eq_or_lt_of_le hj1 with rfl | hlt
        · simpa [occursAt] using hpre
        · exact h4 j hlt hj2

/-- C1: on the text "Pursuant to 7 U.S.C. 136 and chapter 5 of title 7,
United States Code, the Secretary shall...", the citation matcher whose
pattern enumerates the lead-in forms (`find_us_code_citations` of the
2024-11-27 variant) returns exactly two distinct matches: one for the
"7 U.S.C. 136" form and one for the
"chapter 5 of title 7, United States Code" form. -/
theorem claim1_matcher_two_distinct_forms :
    find_us_code_citations_27 (strL "Pursuant to 7 U.S.C. 136 and chapter 5 of title 7, United States Code, the Secretary shall...")
      = [strL "7 U.S.C. 136", strL "chapter 5 of title 7, United States Code"] ∧
    strL "7 U.S.C. 136" ≠ strL "chapter 5 of title 7, United States Code" :=
  ⟨by decide, by decide⟩

/-- C2: for every input text the matcher reports the non-overlapping
occurrences of its pattern in text order (every span is well formed and
each span ends at or before the next one starts, for both variants), with
no deduplication: the text "42 U.S.C. 1983 and 42 U.S.C. 1983 again"
yields exactly two matches, both equal to "42 U.S.C. 1983". -/
theorem claim2_nonoverlapping_ordered_duplicates :
    (∀ text, List.Chain' (fun a b => a.2 ≤ b.1) (findallSpans pattern28 text)) ∧
    (∀ text sp, sp ∈ findallSpans pattern28 text → sp.1 ≤ sp.2) ∧
    (∀ text, List.Chain' (fun a b => a.2 ≤ b.1) (findallSpans pattern27 text)) ∧
    (∀ text sp, sp ∈ findallSpans pattern27 text → sp.1 ≤ sp.2) ∧
    find_us_code_citations_28 (strL "42 U.S.C. 1983 and 42 U.S.C. 1983 again")
      = [strL "42 U.S.C. 1983", strL "42 U.S.C. 1983"] ∧
    find_us_code_citations_27 (strL "42 U.S.C. 1983 and 42 U.S.C. 1983 again")
      = [strL "42 U.S.C. 1983", strL "42 U.S.C. 1983"] :=
  ⟨fun text => scanGo_chain _ _ _ _,
   fun text sp h => scanGo_span_le _ _ _ _ sp h,
   fun text => scanGo_chain _ _ _ _,
   fun text sp h => scanGo_span_le _ _ _ _ sp h,
   by decide, by decide⟩

theorem claim2_witness :
    (0, 14) ∈ findallSpans pattern28 (strL "42 U.S.C. 1983 and 42 U.S.C. 1983 again") ∧
    (0, 14).1 ≤ (0, 14).2 :=
  ⟨by decide, claim2_nonoverlapping_ordered_duplicates.2.1
     (strL "42 U.S.C. 1983 and 42 U.S.C. 1983 again") (0, 14) (by decide)⟩

/-- C3: for every text and every match span `[s, e)` inside it, the
context returned by `get_context` is built from at most 40 characters
before the match and at most 40 characters after it, both clipped at the
string boundaries; when the match ends at the last character the
trailing context is empty. -/
theorem claim3_context_window_bounds :
    ∀ (text : List Char) (s e : Nat), s ≤ e → e ≤ text.length →
      (ctxBefore text s).length ≤ 40 ∧ (ctxAfter text e).length ≤ 40 ∧
      get_context text s e
        = pyStrip (ctxBefore text s ++ sliceStr text s e ++ ctxAfter text e) ∧
      (e = text.length → ctxAfter text e = []) := by
  intro text s e hse hel
  refine ⟨ctxBefore_length_le .., ctxAfter_length_le .., ?_, ?_⟩
  · unfold get_context ctxBefore ctxAfter
    rw [sliceStr_append text (s - 40) s e (by omega) hse,
      sliceStr_append text (s - 40) e (min (e + 40) text.length) (by omega) (by omega)]
  · intro he
    subst he
    unfold ctxAfter sliceStr
    rw [Nat.min_eq_right (by omega)]
    simp

theorem claim3_witness : ctxAfter sample50 50 = [] :=
  (claim3_context_window_bounds sample50 35 50 (by decide) (by decide)).2.2.2 (by decide)

/-- C4: the lead-in forms of the 2024-11-27 pattern accept a title
number of exactly 1 or 2 digits: "123 U.S.C. 45" is not matched at all,
while the same text with a 2-digit or 1-digit title number is. -/
theorem claim4_title_number_two_digits :
    find_us_code_citations_27 (strL "123 U.S.C. 45") = [] ∧
    find_us_code_citations_27 (strL "12 U.S.C. 45") = [strL "12 U.S.C. 45"] ∧
    find_us_code_citations_27 (strL "3 U.S.C. 45") = [strL "3 U.S.C. 45"] :=
  ⟨by decide, by decide, by decide⟩

/-- C5: the context lookup of `process_urls` (2024-11-28) searches for
the first occurrence of the literal citation string
(`searchLiteral` reports an occurrence and nothing occurs earlier), so
every reported row carries the context of the first occurrence of its
citation; on `dupText`, where "42 U.S.C. 1983" occurs at 46 and again at
107, both rows carry the context of position 46, which differs from the
context of the second occurrence. -/
theorem claim5_context_first_occurrence :
    (∀ text pat s e, searchLiteral text pat = some (s, e) →
       e = s + pat.length ∧ occursAt text pat s ∧ ∀ j, j < s → ¬ occursAt text pat j) ∧
    (∀ url text r, r ∈ processText url text →
       ∃ s e, searchLiteral (normalize_text text) r.citation = some (s, e) ∧
         r.context = get_context (normalize_text text) s e) ∧
    processText dupUrl dupText
      = [⟨dupUrl, strL "42 U.S.C. 1983", get_context dupText 46 60⟩,
         ⟨dupUrl, strL "42 U.S.C. 1983", get_context dupText 46 60⟩] ∧
    occursAt dupText (strL "42 U.S.C. 1983") 107 ∧
    get_context dupText 46 60 ≠ get_context dupText 107 121 := by
  refine ⟨?_, ?_, by decide, by decide, by decide⟩
  · intro text pat s e h
    obtain ⟨h1, h2, h3, h4⟩ := searchLit_spec text pat (text.length + 1) 0 s e h
    exact ⟨h2, h3, fun j hj => h4 j (Nat.zero_le _) hj⟩
  · intro url text r hr
    simp only [processText] at hr
    split at hr
    · simp at hr
    · obtain ⟨c, hc, hfc⟩ := List.mem_filterMap.mp hr
      rw [Option.map_eq_some'] at hfc
      obtain ⟨se, hse, hr'⟩ := hfc
      obtain ⟨s0, e0⟩ := se
      subst hr'
      exact ⟨s0, e0, hse, rfl⟩

theorem claim5_witness :
    ∃ s e, searchLiteral (normalize_text dupText)
        (Row.citation ⟨dupUrl, strL "42 U.S.C. 1983", get_context dupText 46 60⟩)
          = some (s, e) ∧
      Row.context ⟨dupUrl, strL "42 U.S.C. 1983", get_context dupText 46 60⟩
        = get_context (normalize_text dupText) s e :=
  claim5_context_first_occurrence.2.1 dupUrl dupText _ (by decide)

/-- C6: `normalize_text` (whitespace collapsing followed by em-dash
substitution) is idempotent. -/
theorem claim6_normalize_idempotent (l : List Char) :
    normalize_text (normalize_text l) = normalize_text l := by
  unfold normalize_text
  rw [collapseWS_map_replDash, collapseWS_idem, List.map_map]
  congr 1
  funext c
  exact replDash_idem c

/-- C7: when a downloaded document cannot be opened or parsed,
`extract_text_from_pdf` (either variant) catches the failure and returns
the empty string; that document then contributes zero citations and both
accumulation loops continue with the remaining documents unchanged. -/
theorem claim7_extraction_failure_empty :
    ∀ (err url fn : List Char) (rest : List Doc),
      extract_text_from_pdf_28 (.error err) = [] ∧
      extract_text_from_pdf_27 (.error err) = [] ∧
      find_us_code_citations_28 [] = [] ∧
      find_us_code_citations_27 [] = [] ∧
      processUrls28 (⟨url, true, .error err⟩ :: rest) = processUrls28 rest ∧
      results27 (⟨fn, true, .error err⟩ :: rest)
        = ⟨filenameOf fn, []⟩ :: results27 rest := by
  intro err url fn rest
  have h27 : find_us_code_citations_27 ([] : List Char) = [] := by decide
  refine ⟨rfl, rfl, by decide, h27, ?_, ?_⟩
  · simp [processUrls28, extract_text_from_pdf_28, processText]
  · simp [results27, List.filterMap_cons, extract_text_from_pdf_27, accumPages, h27]

/-- C8: a fetch whose every attempt is answered with status 503 exhausts
the retry budget and `download_pdf` returns `False`; for every URL whose
download failed, no extraction or matching happens and no row is
appended — the run continues with the remaining URLs unchanged, in both
variants. -/
theorem claim8_download_failure_skips :
    (∀ statuses : Nat → Nat, (∀ i, statuses i = 503) → download_pdf statuses = false) ∧
    (∀ (d : Doc) (rest : List Doc), d.dl = false →
      processUrls28 (d :: rest) = processUrls28 rest ∧
      results27 (d :: rest) = results27 rest) := by
  constructor
  · intro statuses h
    unfold download_pdf retriedStatus
    have hall : ∀ i ∈ List.range (retryTotal + 1),
        (if statuses i ∈ status_forcelist then none else some (statuses i)) = none := by
      intro i _
      rw [h i]
      decide
    rw [List.findSome?_eq_none_iff.mpr hall]
  · intro d rest hd
    constructor
    · simp [processUrls28, hd]
    · simp [results27, List.filterMap_cons, hd]

theorem claim8_witness :
    download_pdf (fun _ => 503) = false ∧ processUrls28 [docFail] = processUrls28 [] :=
  ⟨claim8_download_failure_skips.1 (fun _ => 503) (fun _ => rfl),
   (claim8_download_failure_skips.2 docFail [] rfl).1⟩

/-- C9: with an empty accumulated result list, the 2024-11-28 variant
writes no output file while the 2024-11-27 variant writes a file
consisting of exactly the header line and no data rows; in every case the
2024-11-27 output is one header line followed by one line per record,
with the header "filename,citations" whenever there are records. -/
theorem claim9_empty_results_output :
    writes28 [] = false ∧
    (∀ rs : List Row, rs ≠ [] → writes28 rs = true) ∧
    csv27 [] = [[]] ∧
    (∀ rs : List Row27, (csv27 rs).length = rs.length + 1) ∧
    (∀ rs : List Row27, rs ≠ [] → (csv27 rs).head? = some (strL "filename,citations")) := by
  refine ⟨rfl, ?_, by decide, ?_, ?_⟩
  · intro rs h
    cases rs with
    | nil => exact absurd rfl h
    | cons r rs' => rfl
  · intro rs
    simp [csv27]
  · intro rs h
    cases rs with
    | nil => exact absurd rfl h
    | cons r rs' =>
      show some (joinComma (columns27 (r :: rs'))) = _
      have hc : columns27 (r :: rs') = [strL "filename", strL "citations"] := rfl
      rw [hc]
      decide

theorem claim9_witness :
    writes28 [oneRow] = true ∧
    (csv27 [oneRow27]).head? = some (strL "filename,citations") :=
  ⟨claim9_empty_results_output.2.1 [oneRow] (List.cons_ne_nil _ _),
   claim9_empty_results_output.2.2.2.2 [oneRow27] (List.cons_ne_nil _ _)⟩

/-- C10: in the 2024-11-27 variant, the result list is exactly one
`{filename, citations}` row per successfully downloaded URL, in order;
in particular a document with zero citations still contributes its row,
carrying an empty citations list. -/
theorem claim10_one_row_per_success :
    (∀ docs : List Doc, results27 docs
       = (docs.filter (fun d => d.dl)).map
           (fun d => ⟨filenameOf d.url,
             find_us_code_citations_27 (extract_text_from_pdf_27 d.pdf)⟩)) ∧
    results27 [⟨strL "http://x/a.pdf", true, .ok [some (strL "no citations here")]⟩]
      = [⟨strL "a.pdf", []⟩] := by
  constructor
  · intro docs
    induction docs with
    | nil => rfl
    | cons d rest ih =>
      simp only [results27, List.filterMap_cons, List.filter_cons] at *
      by_cases hd : d.dl = true
      · simp [hd, ih]
      · simp [hd, ih]
  · decide

end USCode
